import Mathlib

/-!
Verification of the browser-backed scraping engine of a retrieval-augmented
generation service written in Rust.  The development shallowly embeds the
relevant parts of the source:

* `src/scraper.rs` — `WebScraper::scrape_text`, `wait_for_page_load`,
  `extract_text`, `clean_text`;
* `src/agent_workflow/data_retriever.rs` — `is_scrapeable_url` and the
  filtering / fan-out logic of `DataRetrieverTask::run`.

Strings are modelled as `List Char` (a Rust `&str` is a UTF-8 sequence of
characters; `str::len` counts UTF-8 bytes, which we compute per character).
Fallible browser operations are modelled as oracle functions returning
`Except String _`; timing (sleeps) is irrelevant to any value computed and
is not modelled.
-/

/-! ## Rust string primitives -/

/-- Number of UTF-8 bytes of one character, as counted by Rust `str::len`. -/
def csize (c : Char) : Nat :=
  if c.toNat < 0x80 then 1
  else if c.toNat < 0x800 then 2
  else if c.toNat < 0x10000 then 3
  else 4

/-- UTF-8 byte length of a character sequence: Rust `str::len`. -/
def utf8Len : List Char → Nat
  | [] => 0
  | c :: l => csize c + utf8Len l

/-- Unicode `White_Space` property, as used by Rust `char::is_whitespace`. -/
def rustIsWs (c : Char) : Bool :=
  let n := c.toNat
  (0x9 ≤ n && n ≤ 0xD) || n = 0x20 || n = 0x85 || n = 0xA0 || n = 0x1680 ||
  (0x2000 ≤ n && n ≤ 0x200A) || n = 0x2028 || n = 0x2029 || n = 0x202F ||
  n = 0x205F || n = 0x3000

/-- Model of Rust `str::trim_start`. -/
def trimStart (l : List Char) : List Char := l.dropWhile rustIsWs

/-- Model of Rust `str::trim_end`. -/
def trimEnd (l : List Char) : List Char := (l.reverse.dropWhile rustIsWs).reverse

/-- Model of Rust `str::trim`: drop `White_Space` characters from both ends. -/
def rustTrim (l : List Char) : List Char := trimEnd (trimStart l)

/-- Split into segments that each retain their terminating newline, as Rust
`str::split_inclusive('\n')` does; an unterminated final segment is kept,
and the empty string yields no segment. -/
def splitInclNl : List Char → List (List Char)
  | [] => []
  | c :: rest =>
    if c = '\n' then [c] :: splitInclNl rest
    else
      match splitInclNl rest with
      | [] => [[c]]
      | seg :: segs => (c :: seg) :: segs

/-- Per-segment post-processing of Rust `str::lines`: strip one trailing
newline, and after that one trailing carriage return. -/
def lineMap (seg : List Char) : List Char :=
  if seg.getLast? = some '\n' then
    let s := seg.dropLast
    if s.getLast? = some '\r' then s.dropLast else s
  else seg

/-- Model of Rust `str::lines`. -/
def rustLines (l : List Char) : List (List Char) := (splitInclNl l).map lineMap

/-- Join with newline separators, as Rust `Vec::join("\n")`. -/
def joinNl : List (List Char) → List Char
  | [] => []
  | [l] => l
  | l :: ls => l ++ '\n' :: joinNl ls

/-- Join with single-space separators, as Rust `Vec::join(" ")`. -/
def joinSpace : List (List Char) → List Char
  | [] => []
  | [l] => l
  | l :: ls => l ++ ' ' :: joinSpace ls

/-- Model of `WebScraper::clean_text` (src/scraper.rs lines 206-212):
split into lines, trim each line, keep the lines that are nonempty and
longer than 2 bytes, and rejoin with newlines. -/
def clean_text (text : String) : String :=
  String.mk (joinNl ((((rustLines text.data).map rustTrim).filter
    (fun line => !line.isEmpty && decide (2 < utf8Len line)))))

/-! ## URL classifier -/

/-- ASCII lowercasing of one character, modelling the effect of Rust
`str::to_lowercase` on the ASCII range (the URLs the classifier compares
against are ASCII literals). -/
def lowerA (c : Char) : Char :=
  if 'A' ≤ c && c ≤ 'Z' then Char.ofNat (c.toNat + 32) else c

/-- Lowercase a character sequence. -/
def lowerStr (l : List Char) : List Char := l.map lowerA

/-- Decide whether `pat` occurs as a contiguous subsequence of `l`, as Rust
`str::contains` does. -/
def containsSeq (pat : List Char) : List Char → Bool
  | [] => pat.isEmpty
  | c :: rest => pat.isPrefixOf (c :: rest) || containsSeq pat rest

/-- Extension blacklist of `is_scrapeable_url`
(src/agent_workflow/data_retriever.rs lines 18-22). -/
def nonScrapeableExtensions : List (List Char) :=
  [".pdf".data, ".doc".data, ".docx".data, ".xls".data, ".xlsx".data,
   ".ppt".data, ".pptx".data, ".zip".data, ".rar".data, ".tar".data,
   ".gz".data, ".7z".data, ".mp3".data, ".mp4".data, ".avi".data,
   ".mov".data, ".wav".data, ".jpg".data, ".jpeg".data, ".png".data,
   ".gif".data, ".bmp".data, ".svg".data, ".exe".data, ".dmg".data,
   ".app".data, ".deb".data, ".rpm".data]

/-- Model of `is_scrapeable_url` (src/agent_workflow/data_retriever.rs lines
14-42): lowercase the URL; reject if it ends with a blacklisted extension;
reject if it contains `/download/` together with `.doc`, `.pdf`, `.xls` or
`.ppt`; otherwise accept.  The for-loop of early returns is the `any` test. -/
def is_scrapeable_url (url : String) : Bool :=
  let url_lower := lowerStr url.data
  if nonScrapeableExtensions.any (fun ext => ext.isSuffixOf url_lower) then
    false
  else if containsSeq "/download/".data url_lower &&
      (containsSeq ".doc".data url_lower || containsSeq ".pdf".data url_lower ||
       containsSeq ".xls".data url_lower || containsSeq ".ppt".data url_lower) then
    false
  else
    true

/-! ## Retrieval pipeline (DataRetrieverTask::run) -/

/-- One search hit, with the fields `DataRetrieverTask::run` reads. -/
structure OrganicResult where
  title : String
  link : String
deriving DecidableEq

/-- Error type of the external task runner; `run` only ever constructs
`TaskExecutionFailed`. -/
inductive GraphError where
  | TaskExecutionFailed (msg : String)
deriving DecidableEq

/-- Model of Rust `collect::<Result<Vec<_>, _>>()`: succeed with all values,
or stop at the first error in order. -/
def collectExcept {α : Type} : List (Except String α) → Except String (List α)
  | [] => .ok []
  | .error e :: _ => .error e
  | .ok a :: rest =>
    match collectExcept rest with
    | .error e => .error e
    | .ok as => .ok (a :: as)

/-- Substantiality test of the retrieval pipeline
(src/agent_workflow/data_retriever.rs line 105): `text.trim().len() > 100`,
where Rust `len` counts UTF-8 bytes. -/
def substantial (text : String) : Bool := decide (100 < utf8Len (rustTrim text.data))

/-- Model of the post-search part of `DataRetrieverTask::run`
(src/agent_workflow/data_retriever.rs lines 61-117).  The context lookup of
the enhanced query and the web-search call happen before this fragment and
are abstracted into the `organic` input; the scraper singleton is abstracted
into the `scrape` oracle.  The returned list models the value stored under
`SEARCH_RESULTS`. -/
def DataRetrieverRun (organic : List OrganicResult)
    (scrape : String → Except String String) : Except GraphError (List String) :=
  let scrapeable_results := organic.filter (fun r => is_scrapeable_url r.link)
  if scrapeable_results.isEmpty then .ok []
  else
    match collectExcept (scrapeable_results.map (fun r => scrape r.link)) with
    | .error e => .error (.TaskExecutionFailed ("Failed to scrape: " ++ e))
    | .ok scraped_results => .ok (scraped_results.filter substantial)

/-! ## HTML model

The scraper crate used by `extract_text` parses with html5ever and
serializes elements back with html5ever's HTML serializer.  We embed the
fragment of that behaviour that `extract_text` exercises: a tag/text
tokenizer that lowercases tag and attribute names and normalizes attribute
syntax, a stack tree-builder, and a serializer that quotes attributes,
escapes text outside raw-text elements and leaves `script`/`style` content
raw.  Implied `html`/`head`/`body` wrappers are not materialized: they
change neither the set of `script`/`style`/content elements nor the
document's text nodes, which is all `extract_text` consumes.  Character
references are not decoded. -/

/-- Node of the parsed document tree. -/
inductive HNode where
  | elem (tag : List Char) (attrs : List (List Char × List Char)) (children : List HNode)
  | text (s : List Char)

/-- Token produced by the tokenizer. -/
inductive HTok where
  | openTag (tag : List Char) (attrs : List (List Char × List Char))
  | closeTag (tag : List Char)
  | txt (s : List Char)
deriving DecidableEq

/-- ASCII whitespace accepted inside tags (tab, LF, FF, CR, space). -/
def isWsA (c : Char) : Bool :=
  c = ' ' || c = '\t' || c = '\n' || c = '\r' || c = '\x0c'

/-- Attribute parser over the remainder of a tag body; the fuel argument
(instantiated with the body length plus one) only forces termination. -/
def parseAttrs : Nat → List Char → List (List Char × List Char)
  | 0, _ => []
  | _, [] => []
  | fuel + 1, c :: rest =>
    if isWsA c || c = '/' then parseAttrs fuel rest
    else
      let name := (c :: rest).takeWhile (fun x => !isWsA x && x ≠ '=' && x ≠ '/')
      let after := ((c :: rest).drop name.length).dropWhile isWsA
      if name.isEmpty then parseAttrs fuel rest
      else
        match after with
        | '=' :: v =>
          let v2 := v.dropWhile isWsA
          match v2 with
          | '"' :: vs =>
            let value := vs.takeWhile (fun x => x ≠ '"')
            (name.map lowerA, value) :: parseAttrs fuel (vs.drop (value.length + 1))
          | '\'' :: vs =>
            let value := vs.takeWhile (fun x => x ≠ '\'')
            (name.map lowerA, value) :: parseAttrs fuel (vs.drop (value.length + 1))
          | _ =>
            let value := v2.takeWhile (fun x => !isWsA x)
            (name.map lowerA, value) :: parseAttrs fuel (v2.drop value.length)
        | _ => (name.map lowerA, []) :: parseAttrs fuel after

/-- Turn the body of a `<...>` group into a token: closing tags start with
a slash; names are ASCII-lowercased. -/
def mkTag (body : List Char) : HTok :=
  match body with
  | '/' :: rest => .closeTag ((rest.takeWhile (fun c => !isWsA c)).map lowerA)
  | _ =>
    let name := body.takeWhile (fun c => !isWsA c && c ≠ '/')
    .openTag (name.map lowerA) (parseAttrs (body.length + 1) (body.drop name.length))

/-- Tokenizer state: accumulating text, or accumulating a tag body
(both accumulators reversed). -/
inductive TkMode where
  | text (acc : List Char)
  | tag (acc : List Char)

/-- Single-pass tokenizer: text runs are broken by `<`, tag bodies end at
`>`; an unterminated tag at end of input is discarded. -/
def tokenizeAux : List Char → TkMode → List HTok
  | [], .text acc => if acc.isEmpty then [] else [.txt acc.reverse]
  | [], .tag _ => []
  | c :: rest, .text acc =>
    if c = '<' then
      if acc.isEmpty then tokenizeAux rest (.tag [])
      else .txt acc.reverse :: tokenizeAux rest (.tag [])
    else tokenizeAux rest (.text (c :: acc))
  | c :: rest, .tag acc =>
    if c = '>' then mkTag acc.reverse :: tokenizeAux rest (.text [])
    else tokenizeAux rest (.tag (c :: acc))

/-- HTML void elements: they never take children and serialize without an
end tag. -/
def voidTag (t : List Char) : Bool :=
  ["area".data, "base".data, "br".data, "col".data, "embed".data, "hr".data,
   "img".data, "input".data, "link".data, "meta".data, "param".data,
   "source".data, "track".data, "wbr".data].contains t

/-- Open element awaiting its end tag; children accumulate reversed. -/
structure HFrame where
  tag : List Char
  attrs : List (List Char × List Char)
  revChildren : List HNode

/-- Append a finished node to the innermost open element, or to the
top-level accumulator when no element is open. -/
def addChild (n : HNode) : List HFrame → List HNode → List HFrame × List HNode
  | [], base => ([], n :: base)
  | f :: fs, base => (⟨f.tag, f.attrs, n :: f.revChildren⟩ :: fs, base)

/-- Build the node of a finished frame. -/
def closeFrame (f : HFrame) : HNode := .elem f.tag f.attrs f.revChildren.reverse

/-- Walker of `closeUpto`: the already-closed node `n` is carried until the
frame with the sought tag (or the bottom of the stack) is reached. -/
def closeUptoGo (t : List Char) (n : HNode) : List HFrame → List HNode → List HFrame × List HNode
  | [], base => ([], n :: base)
  | g :: gs, base =>
    if g.tag = t then addChild (closeFrame ⟨g.tag, g.attrs, n :: g.revChildren⟩) gs base
    else closeUptoGo t (closeFrame ⟨g.tag, g.attrs, n :: g.revChildren⟩) gs base

/-- Pop and close frames until (and including) the first one with the given
tag, implicitly closing the intervening open elements. -/
def closeUpto (t : List Char) : List HFrame → List HNode → List HFrame × List HNode
  | [], base => ([], base)
  | f :: fs, base =>
    if f.tag = t then addChild (closeFrame f) fs base
    else closeUptoGo t (closeFrame f) fs base

/-- Walker of `closeAll`: the already-closed node `n` is folded into the
remaining open frames. -/
def closeAllGo (n : HNode) : List HFrame → List HNode → List HNode
  | [], base => (n :: base).reverse
  | g :: gs, base => closeAllGo (closeFrame ⟨g.tag, g.attrs, n :: g.revChildren⟩) gs base

/-- Close every still-open frame at end of input. -/
def closeAll : List HFrame → List HNode → List HNode
  | [], base => base.reverse
  | f :: fs, base => closeAllGo (closeFrame f) fs base

/-- Stack tree-builder over the token stream: stray end tags are ignored,
an end tag closes up to its matching open element. -/
def treeifyAux : List HTok → List HFrame → List HNode → List HNode
  | [], stack, base => closeAll stack base
  | .txt s :: rest, stack, base =>
    treeifyAux rest ((addChild (.text s) stack base).1) ((addChild (.text s) stack base).2)
  | .openTag t a :: rest, stack, base =>
    if voidTag t then
      treeifyAux rest ((addChild (.elem t a []) stack base).1) ((addChild (.elem t a []) stack base).2)
    else treeifyAux rest (⟨t, a, []⟩ :: stack) base
  | .closeTag t :: rest, stack, base =>
    if (stack.map HFrame.tag).contains t then
      treeifyAux rest ((closeUpto t stack base).1) ((closeUpto t stack base).2)
    else treeifyAux rest stack base

/-- Parse a character sequence into a forest of nodes
(model of `Html::parse_document`). -/
def parseDoc (l : List Char) : List HNode := treeifyAux (tokenizeAux l (.text [])) [] []

mutual
/-- Elements of one node in tree (preorder) order. -/
def nodeElems : HNode → List HNode
  | .text _ => []
  | .elem t a cs => .elem t a cs :: forestElems cs
/-- Elements of a forest in tree order (model of iterating `select`). -/
def forestElems : List HNode → List HNode
  | [] => []
  | n :: ns => nodeElems n ++ forestElems ns
end

mutual
/-- Text-node contents below one node, in tree order. -/
def nodeTexts : HNode → List (List Char)
  | .text s => [s]
  | .elem _ _ cs => forestTexts cs
/-- Text-node contents of a forest, in tree order (model of `.text()`). -/
def forestTexts : List HNode → List (List Char)
  | [] => []
  | n :: ns => nodeTexts n ++ forestTexts ns
end

/-- Tag of an element node. -/
def tagOf : HNode → Option (List Char)
  | .elem t _ _ => some t
  | .text _ => none

/-- Elements whose text content html5ever serializes raw (unescaped). -/
def rawTextTag (t : List Char) : Bool :=
  ["style".data, "script".data, "xmp".data, "iframe".data, "noembed".data,
   "noframes".data, "plaintext".data].contains t

/-- Escape one character of a text node as html5ever's serializer does. -/
def escapeChar (c : Char) : List Char :=
  if c = '&' then "&amp;".data
  else if c = '\xa0' then "&nbsp;".data
  else if c = '<' then "&lt;".data
  else if c = '>' then "&gt;".data
  else [c]

/-- Escape one character of an attribute value as html5ever's serializer
does. -/
def escapeAttrChar (c : Char) : List Char :=
  if c = '&' then "&amp;".data
  else if c = '\xa0' then "&nbsp;".data
  else if c = '"' then "&quot;".data
  else [c]

/-- Escape text-node content. -/
def escapeText (l : List Char) : List Char := (l.map escapeChar).flatten

/-- Serialize an attribute list: space, name, `="`, escaped value, `"`. -/
def serializeAttrs (a : List (List Char × List Char)) : List Char :=
  (a.map (fun p => ' ' :: (p.1 ++ '=' :: '"' :: ((p.2.map escapeAttrChar).flatten ++ ['"'])))).flatten

mutual
/-- Serialize one node as html5ever (hence `ElementRef::html()`) does:
lowercased tags, quoted attributes, escaped text except below raw-text
elements, no end tag for void elements. -/
def serializeNode : HNode → List Char
  | .text s => escapeText s
  | .elem t a cs =>
    if voidTag t then '<' :: (t ++ serializeAttrs a ++ ['>'])
    else
      '<' :: (t ++ serializeAttrs a ++ '>' ::
        ((if rawTextTag t then serializeRawForest cs else serializeForest cs) ++
          ('<' :: '/' :: (t ++ ['>']))))
/-- Serialize a forest. -/
def serializeForest : List HNode → List Char
  | [] => []
  | n :: ns => serializeNode n ++ serializeForest ns
/-- Serialize children of a raw-text element: text is emitted unescaped. -/
def serializeRawForest : List HNode → List Char
  | [] => []
  | .text s :: ns => s ++ serializeRawForest ns
  | n :: ns => serializeNode n ++ serializeRawForest ns
end

/-- Scanner of `replaceAll`: a positive `skip` counter consumes the
remaining characters of a match that has just been replaced, without
re-matching inside it (Rust replacement is non-overlapping). -/
def raAux (pat rep : List Char) : List Char → Nat → List Char
  | [], _ => []
  | _ :: rest, skip + 1 => raAux pat rep rest skip
  | c :: rest, 0 =>
    if pat ≠ [] ∧ pat.isPrefixOf (c :: rest) then
      rep ++ raAux pat rep rest (pat.length - 1)
    else c :: raAux pat rep rest 0

/-- Replace every occurrence of `pat` (scanning left to right, without
overlap) by `rep`, as Rust `str::replace`; the guard against an empty
pattern is never exercised by `extract_text`, whose patterns are element
serializations starting with `<`. -/
def replaceAll (pat rep l : List Char) : List Char := raAux pat rep l 0

/-- Match of the `script, style` selector group. -/
def isScriptStyle (n : HNode) : Bool :=
  match tagOf n with
  | some t => t = "script".data || t = "style".data
  | none => false

/-- Content selector shapes used by `extract_text`. -/
inductive CSel where
  | tagSel (t : List Char)
  | classSel (c : List Char)
  | idSel (i : List Char)

/-- Selector list `["main", "article", ".content", "#content", ".main"]`
(src/scraper.rs line 182), every entry of which parses successfully. -/
def contentRules : List CSel :=
  [.tagSel "main".data, .tagSel "article".data, .classSel "content".data,
   .idSel "content".data, .classSel "main".data]

/-- First value of an attribute in an attribute list. -/
def getAttr (name : List Char) : List (List Char × List Char) → Option (List Char)
  | [] => none
  | (n, v) :: rest => if n = name then some v else getAttr name rest

/-- Scanner of `splitWsA`, accumulating the current word reversed. -/
def splitWsAAux : List Char → List Char → List (List Char)
  | [], acc => if acc.isEmpty then [] else [acc.reverse]
  | c :: rest, acc =>
    if isWsA c then
      if acc.isEmpty then splitWsAAux rest [] else acc.reverse :: splitWsAAux rest []
    else splitWsAAux rest (c :: acc)

/-- Split a class attribute value on ASCII whitespace. -/
def splitWsA (l : List Char) : List (List Char) := splitWsAAux l []

/-- CSS-style match of one content selector against a node. -/
def matchesSel (s : CSel) (n : HNode) : Bool :=
  match n, s with
  | .elem t _ _, .tagSel q => t = q
  | .elem _ a _, .classSel q =>
    match getAttr "class".data a with
    | some v => (splitWsA v).contains q
    | none => false
  | .elem _ a _, .idSel q => getAttr "id".data a = some q
  | .text _, _ => false

/-- Visible text of one element: its text nodes joined by single spaces. -/
def elemText (n : HNode) : List Char := joinSpace (nodeTexts n)

/-- Inner loop of the selector scan: the first selected element whose
joined text trims to more than 100 bytes. -/
def findSubstantial (es : List HNode) : Option (List Char) :=
  es.findSome? (fun e =>
    let t := elemText e
    if 100 < utf8Len (rustTrim t) then some t else none)

/-- Outer loop of the selector scan, in the fixed selector order. -/
def firstSubstantial : List CSel → List HNode → Option (List Char)
  | [], _ => none
  | sel :: rest, doc =>
    match findSubstantial ((forestElems doc).filter (matchesSel sel)) with
    | some t => some t
    | none => firstSubstantial rest doc

/-- Model of `WebScraper::extract_text` (src/scraper.rs lines 168-203):
parse; textually delete the serialization of every `script`/`style`
element from the raw input; re-parse; return the cleaned text of the first
substantial content-selector hit, else of the whole document. -/
def extract_text (html : String) : String :=
  let document := parseDoc html.data
  let scriptStyle := (forestElems document).filter isScriptStyle
  let cleaned_html := scriptStyle.foldl (fun acc e => replaceAll (serializeNode e) [] acc) html.data
  let clean_doc := parseDoc cleaned_html
  match firstSubstantial contentRules clean_doc with
  | some t => clean_text (String.mk t)
  | none => clean_text (String.mk (joinSpace (forestTexts clean_doc)))

/-- Test family for the extractor: one `script`, one `style` and one `p`
element whose markup is written exactly in the canonical form that the
serializer produces (lowercase tags, no attributes). -/
def famHtml (s c p : List Char) : List Char :=
  '<' :: 's' :: 'c' :: 'r' :: 'i' :: 'p' :: 't' :: '>' ::
    (s ++ ('<' :: '/' :: 's' :: 'c' :: 'r' :: 'i' :: 'p' :: 't' :: '>' ::
      ('<' :: 's' :: 't' :: 'y' :: 'l' :: 'e' :: '>' ::
        (c ++ ('<' :: '/' :: 's' :: 't' :: 'y' :: 'l' :: 'e' :: '>' ::
          ('<' :: 'p' :: '>' ::
            (p ++ ('<' :: '/' :: 'p' :: '>' :: []))))))))

/-! ## Browser-backed scraper (WebScraper::scrape_text) -/

/-- Launch options passed to the browser, as a value
(headless flag, window size, argument list). -/
structure LaunchConfig where
  headless : Bool
  window_size : Option (Nat × Nat)
  args : List String
deriving DecidableEq

/-- Launch configuration built in `WebScraper::new` (src/scraper.rs lines
20-32). -/
def newLaunchConfig : LaunchConfig :=
  { headless := true
    window_size := some (1280, 800)
    args := ["--disable-blink-features=AutomationControlled",
             "--disable-web-security",
             "--disable-features=VizDisplayCompositor",
             "--user-agent=Mozilla/5.0 (Windows NT 10.0; Win64; x64) AppleWebKit/537.36 (KHTML, like Gecko) Chrome/124.0.0.0 Safari/537.36"] }

/-- Launch configuration built on the recovery path of `scrape_text`
(src/scraper.rs lines 65-77). -/
def recreateLaunchConfig : LaunchConfig :=
  { headless := true
    window_size := some (1280, 800)
    args := ["--disable-blink-features=AutomationControlled",
             "--disable-web-security",
             "--disable-features=VizDisplayCompositor",
             "--user-agent=Mozilla/5.0 (Windows NT 10.0; Win64; x64) AppleWebKit/537.36 (KHTML, like Gecko) Chrome/124.0.0.0 Safari/537.36"] }

/-- Oracle view of the browser-automation capability consumed by the
scraper.  `B` is the browser-handle type, `T` the tab-handle type; every
fallible operation is a function so that one `scrape_text` run is a pure
computation over it. -/
structure BrowserEnv (B T : Type) where
  new_tab : B → Except String T
  launch : LaunchConfig → Except String B
  navigate_to : T → String → Except String Unit
  wait_for_element : T → String → Except String Unit
  evalChallengeProbe : T → Except String (Option String)
  evalCookieProbe : T → Except String (Option String)
  evalReadyState : T → Except String (Option String)
  get_content : T → Except String String
  close_target : T → Except String Unit

/-- Result of the tab-acquisition critical section of `scrape_text`
(src/scraper.rs lines 45-87), instrumented with the number of `new_tab`
and browser-launch calls it performed and the browser handle left stored
in the mutex afterwards. -/
structure AcquireOutcome (B T : Type) where
  result : Except String T
  finalBrowser : B
  newTabCalls : Nat
  launchCalls : Nat

/-- Model of the tab-acquisition critical section of `scrape_text`
(src/scraper.rs lines 45-87): try to open a tab; on failure launch a fresh
browser with `recreateLaunchConfig`, store it in place of the old handle,
and retry once; anyhow contexts are modelled as the context strings. -/
def acquireTab {B T : Type} (env : BrowserEnv B T) (browser : B) : AcquireOutcome B T :=
  match env.new_tab browser with
  | .ok tab => ⟨.ok tab, browser, 1, 0⟩
  | .error _ =>
    match env.launch recreateLaunchConfig with
    | .error _ => ⟨.error "Failed to recreate browser", browser, 1, 1⟩
    | .ok new_browser =>
      match env.new_tab new_browser with
      | .ok tab => ⟨.ok tab, new_browser, 2, 1⟩
      | .error _ =>
        ⟨.error "Failed to create new browser tab after recreation", new_browser, 2, 1⟩

/-- Interpretation of one `evaluate(...)` probe in `wait_for_page_load`:
`result.value.map(|v| v.to_string().contains("true")).unwrap_or(false)`,
with evaluation failure itself defaulted to `false`. -/
def probeIsTrue (r : Except String (Option String)) : Bool :=
  match r with
  | .ok (some v) => containsSeq "true".data v.data
  | .ok none => false
  | .error _ => false

/-- Model of `WebScraper::wait_for_page_load` (src/scraper.rs lines
113-165).  Every fallible step inside it is discarded (`let _ =`) or
defaulted (`unwrap_or`), and the sleeps only consume time, so the function
always returns `Ok(())`; the probes are kept so the model has the same
call structure. -/
def wait_for_page_load {B T : Type} (env : BrowserEnv B T) (tab : T) : Except String Unit :=
  let _ := env.wait_for_element tab "body"
  let is_challenge := probeIsTrue (env.evalChallengeProbe tab)
  let _ := if is_challenge then probeIsTrue (env.evalCookieProbe tab)
           else probeIsTrue (env.evalReadyState tab)
  .ok ()

/-- Result of one `scrape_text` call, instrumented with the tabs that were
closed, the browser handle stored at exit and the operation counts of the
acquisition section. -/
structure ScrapeOutcome (B T : Type) where
  result : Except String String
  closedTabs : List T
  finalBrowser : B
  newTabCalls : Nat
  launchCalls : Nat

/-- Model of `WebScraper::scrape_text` (src/scraper.rs lines 40-110): after
the politeness sleep (timing, not modelled), the tab-acquisition critical
section runs under the browser mutex; outside it the tab is navigated, the
page awaited, the content fetched and extracted; the tab is then closed
unconditionally with the close result discarded (`let _ = tab.close_target()`). -/
def scrape_text {B T : Type} (env : BrowserEnv B T) (browser : B) (url : String) :
    ScrapeOutcome B T :=
  let acq := acquireTab env browser
  match acq.result with
  | .error e => ⟨.error e, [], acq.finalBrowser, acq.newTabCalls, acq.launchCalls⟩
  | .ok tab =>
    let result : Except String String :=
      match env.navigate_to tab url with
      | .error _ => .error ("Failed to navigate to " ++ url)
      | .ok _ =>
        match wait_for_page_load env tab with
        | .error e => .error e
        | .ok _ =>
          match env.get_content tab with
          | .error _ => .error "Failed to get page content"
          | .ok html => .ok (extract_text html)
    let _ := env.close_target tab
    ⟨result, [tab], acq.finalBrowser, acq.newTabCalls, acq.launchCalls⟩

/-- Toy oracle environment over unit handle types in which opening a tab
always fails and launching always succeeds; it exercises the recovery path
of `scrape_text` on concrete inputs. -/
def failTabEnv : BrowserEnv Unit Unit where
  new_tab := fun _ => .error "no tab"
  launch := fun _ => .ok ()
  navigate_to := fun _ _ => .ok ()
  wait_for_element := fun _ _ => .ok ()
  evalChallengeProbe := fun _ => .ok none
  evalCookieProbe := fun _ => .ok none
  evalReadyState := fun _ => .ok none
  get_content := fun _ => .ok ""
  close_target := fun _ => .ok ()

/-- Toy oracle environment over unit handle types in which every browser
operation succeeds except closing the tab; it exercises the cleanup path of
`scrape_text` on concrete inputs. -/
def okEnv : BrowserEnv Unit Unit where
  new_tab := fun _ => .ok ()
  launch := fun _ => .ok ()
  navigate_to := fun _ _ => .ok ()
  wait_for_element := fun _ _ => .ok ()
  evalChallengeProbe := fun _ => .ok none
  evalCookieProbe := fun _ => .ok none
  evalReadyState := fun _ => .ok none
  get_content := fun _ => .ok "<p>hello world</p>"
  close_target := fun _ => .error "close failed"

/-! ## Concurrency model of scrape_text

One `scrape_text` call passes through six phases in order (src/scraper.rs
lines 40-110): the politeness sleep, the tab-acquisition critical section
(lines 45-87, the block in which the `MutexGuard` of `self.browser` lives,
including the recovery path), navigation, the challenge-aware wait, content
extraction, and tab close.  The guard is dropped when that block ends
(line 87), before navigation.  Concurrent calls are modelled as tasks that
interleave `begin phase`/`end phase` steps; beginning a lock-holding phase
requires the lock to be free and takes it, ending such a phase releases it. -/

/-- Phases of one `scrape_text` call, in program order. -/
inductive SPhase where
  | politenessSleep
  | tabAcquire
  | navigate
  | waitForLoad
  | extractContent
  | closeTab
deriving DecidableEq

/-- Program order of the phases. -/
def scrapePhases : List SPhase :=
  [.politenessSleep, .tabAcquire, .navigate, .waitForLoad, .extractContent, .closeTab]

/-- Phases executed while the browser mutex guard is held: exactly the
tab-acquisition critical section. -/
def phaseLocked : SPhase → Bool
  | .tabAcquire => true
  | _ => false

/-- Phase at program position `k`. -/
def phaseOf (k : Nat) : SPhase := scrapePhases.getD k .closeTab

/-- Global state of `n` interleaved `scrape_text` calls: per-task program
counters (counter `2*k` = about to begin phase `k`, `2*k+1` = inside phase
`k`, `12` = done) and the owner of the browser mutex. -/
structure ConcState where
  pcs : List Nat
  lock : Option Nat
deriving DecidableEq

/-- Interleaving step: some task begins or ends its next phase.  A task may
begin a lock-holding phase only when the lock is free, and then takes it;
ending a lock-holding phase releases the lock. -/
inductive CStep : ConcState → ConcState → Prop where
  | enter (s : ConcState) (i k : Nat)
      (hpc : s.pcs.get? i = some (2 * k)) (hk : k < 6)
      (hl : phaseLocked (phaseOf k) = true → s.lock = none) :
      CStep s ⟨s.pcs.set i (2 * k + 1),
               if phaseLocked (phaseOf k) then some i else s.lock⟩
  | leave (s : ConcState) (i k : Nat)
      (hpc : s.pcs.get? i = some (2 * k + 1)) (hk : k < 6) :
      CStep s ⟨s.pcs.set i (2 * k + 2),
               if phaseLocked (phaseOf k) then none else s.lock⟩

/-- Reachability under interleaving steps. -/
def CReach : ConcState → ConcState → Prop := Relation.ReflTransGen CStep

/-- Initial state of `n` concurrent calls: all about to begin, lock free. -/
def concInit (n : Nat) : ConcState := ⟨List.replicate n 0, none⟩

/-- State in which all `n` calls are inside their navigation phase at once
(program counter `5 = 2 * 2 + 1`, navigation being phase `2`). -/
def allNavigating (n : Nat) : ConcState := ⟨List.replicate n 5, none⟩

-- ## Theorems

/-! ## Formalized spec wordings

Definitions in this section follow the wording of the specification (not the
source); they exist to be compared against the source-derived definitions
above and are used by the refutations below. -/

/-- Spec wording of C9: every line of the `clean_text` output has more than
2 characters (the spec counts characters, `List.length` here). -/
def cleanTextCharClaim : Prop :=
  ∀ (s : String), ∀ m ∈ rustLines (clean_text s).data, 2 < m.length

/-- Spec wording of C6: a scraped text passes the substantiality filter iff
its trimmed length exceeds 100 characters (again a character count). -/
def substantialCharClaim : Prop :=
  ∀ (ts : List String) (t : String),
    t ∈ ts.filter substantial ↔ (t ∈ ts ∧ 100 < (rustTrim t.data).length)

/-- Path component of a URL as the spec wording of C4 reads it: everything
up to the first query or fragment delimiter. -/
def urlPath (url : String) : List Char :=
  url.data.takeWhile (fun c => c ≠ '?' && c ≠ '#')

/-- Spec wording of C4: a URL whose path ends (case-insensitively) with a
blacklisted extension is rejected, and the same-named URL without that
extension is accepted. -/
def classifierClaim : Prop :=
  (∀ (url : String) (ext : List Char), ext ∈ nonScrapeableExtensions →
    ext.isSuffixOf (lowerStr (urlPath url)) = true → is_scrapeable_url url = false) ∧
  (∀ (base ext : List Char), ext ∈ nonScrapeableExtensions →
    '?' ∉ base → '#' ∉ base →
    is_scrapeable_url (String.mk (base ++ ext)) = false ∧
    is_scrapeable_url (String.mk base) = true)

/-- Content of the script/style elements of a parsed document: each such
element's text nodes, joined. -/
def scriptStyleContents (html : String) : List (List Char) :=
  ((forestElems (parseDoc html.data)).filter isScriptStyle).map
    (fun e => joinSpace (nodeTexts e))

/-- Spec wording of C1: for every HTML input, no (nonempty) script or style
content of the input occurs in the extractor's output. -/
def extractNoScriptClaim : Prop :=
  ∀ (html : String) (t : List Char), t ∈ scriptStyleContents html →
    t ≠ [] → containsSeq t (extract_text html).data = false

/-! ### Lemmas on trimming -/

theorem dropWhile_idem (p : Char → Bool) (l : List Char) :
    (l.dropWhile p).dropWhile p = l.dropWhile p := by
  induction l with
  | nil => rfl
  | cons c rest ih =>
    by_cases h : p c
    · simp [List.dropWhile_cons, h, ih]
    · simp [List.dropWhile_cons, h]

theorem dropWhile_eq_cons_false {p : Char → Bool} {l r : List Char} {c : Char}
    (h : l.dropWhile p = c :: r) : p c = false := by
  induction l with
  | nil => simp at h
  | cons a as ih =>
    rw [List.dropWhile_cons] at h
    by_cases hp : p a
    · rw [if_pos hp] at h; exact ih h
    · rw [if_neg hp, List.cons.injEq] at h
      rw [← h.1]
      exact Bool.eq_false_iff.mpr hp

theorem trimEnd_trimEnd (l : List Char) : trimEnd (trimEnd l) = trimEnd l := by
  unfold trimEnd
  rw [List.reverse_reverse, dropWhile_idem]

theorem trimEnd_isPrefixOfSelf (l : List Char) : trimEnd l <+: l := by
  rw [← List.reverse_suffix]
  unfold trimEnd
  rw [List.reverse_reverse]
  exact List.dropWhile_suffix _

theorem trimStart_eq_self_of_head {l : List Char}
    (h : ∀ c r, l = c :: r → rustIsWs c = false) : trimStart l = l := by
  cases l with
  | nil => rfl
  | cons c r =>
    unfold trimStart
    rw [List.dropWhile_cons, h c r rfl]
    simp

theorem trimStart_trimEnd_trimStart (l : List Char) :
    trimStart (trimEnd (trimStart l)) = trimEnd (trimStart l) := by
  apply trimStart_eq_self_of_head
  intro c r h
  obtain ⟨t, ht⟩ := trimEnd_isPrefixOfSelf (trimStart l)
  rw [h, List.cons_append] at ht
  exact dropWhile_eq_cons_false (p := rustIsWs) (l := l) ht.symm

theorem rustTrim_idem (l : List Char) : rustTrim (rustTrim l) = rustTrim l := by
  unfold rustTrim
  rw [trimStart_trimEnd_trimStart, trimEnd_trimEnd]

theorem rustTrim_sublist (l : List Char) : List.Sublist (rustTrim l) l := by
  have h1 : List.Sublist (rustTrim l) (trimStart l) :=
    (trimEnd_isPrefixOfSelf (trimStart l)).sublist
  exact h1.trans (List.dropWhile_sublist _)

theorem rustTrim_getLast_not_ws {l : List Char} {c : Char}
    (h : (rustTrim l).getLast? = some c) : rustIsWs c = false := by
  unfold rustTrim trimEnd at h
  rw [List.getLast?_reverse] at h
  cases hd : List.dropWhile rustIsWs (trimStart l).reverse with
  | nil => rw [hd] at h; simp at h
  | cons a r =>
    rw [hd] at h
    simp only [List.head?_cons, Option.some.injEq] at h
    rw [← h]
    exact dropWhile_eq_cons_false hd

/-! ### Lemmas on line splitting and joining -/

theorem splitIncl_shape {l seg : List Char} (h : seg ∈ splitInclNl l) :
    (∃ s, seg = s ++ ['\n'] ∧ '\n' ∉ s) ∨ '\n' ∉ seg := by
  induction l generalizing seg with
  | nil => simp [splitInclNl] at h
  | cons c rest ih =>
    by_cases hc : c = '\n'
    · rw [splitInclNl, if_pos hc] at h
      rcases List.mem_cons.mp h with h1 | h1
      · exact Or.inl ⟨[], by simp [h1, hc], by simp⟩
      · exact ih h1
    · rw [splitInclNl, if_neg hc] at h
      cases hsplit : splitInclNl rest with
      | nil =>
        rw [hsplit] at h
        simp only [List.mem_singleton] at h
        refine Or.inr (by simp [h]; exact fun hh => hc hh.symm)
      | cons s ss =>
        rw [hsplit] at h
        rcases List.mem_cons.mp h with h1 | h1
        · have hs : s ∈ splitInclNl rest := by rw [hsplit]; exact List.mem_cons_self _ _
          rcases ih hs with ⟨s2, hs2, hn2⟩ | hn2
          · refine Or.inl ⟨c :: s2, by simp [h1, hs2], ?_⟩
            simp only [List.mem_cons, not_or]
            exact ⟨fun hh => hc hh.symm, hn2⟩
          · refine Or.inr ?_
            simp only [h1, List.mem_cons, not_or]
            exact ⟨fun hh => hc hh.symm, hn2⟩
        · exact ih (by rw [hsplit]; exact List.mem_cons_of_mem _ h1)

theorem lineMap_not_nl {seg : List Char}
    (h : (∃ s, seg = s ++ ['\n'] ∧ '\n' ∉ s) ∨ '\n' ∉ seg) : '\n' ∉ lineMap seg := by
  rcases h with ⟨s, rfl, hn⟩ | hn
  · rw [lineMap, if_pos (List.getLast?_concat s), List.dropLast_concat]
    by_cases hr : s.getLast? = some '\r'
    · rw [if_pos hr]
      intro hmem
      exact hn ((List.dropLast_sublist s).subset hmem)
    · rw [if_neg hr]; exact hn
  · have hg : seg.getLast? ≠ some '\n' := by
      intro hg
      obtain ⟨ys, rfl⟩ := List.getLast?_eq_some_iff.mp hg
      exact hn (by simp)
    rw [lineMap, if_neg hg]
    exact hn

theorem rustLines_not_nl {l seg : List Char} (h : seg ∈ rustLines l) : '\n' ∉ seg := by
  obtain ⟨s0, hs0, rfl⟩ := List.mem_map.mp h
  exact lineMap_not_nl (splitIncl_shape hs0)

theorem splitIncl_single {m : List Char} (hn : '\n' ∉ m) (hne : m ≠ []) :
    splitInclNl m = [m] := by
  induction m with
  | nil => exact absurd rfl hne
  | cons c rest ih =>
    have hc : c ≠ '\n' := fun hc => hn (by simp [hc])
    rw [splitInclNl, if_neg hc]
    by_cases hr : rest = []
    · subst hr; rfl
    · rw [ih (fun hm => hn (List.mem_cons_of_mem _ hm)) hr]

theorem splitIncl_append_nl {m r : List Char} (hn : '\n' ∉ m) :
    splitInclNl (m ++ '\n' :: r) = (m ++ ['\n']) :: splitInclNl r := by
  induction m with
  | nil => simp [splitInclNl]
  | cons c rest ih =>
    have hc : c ≠ '\n' := fun hc => hn (by simp [hc])
    rw [List.cons_append, splitInclNl, if_neg hc,
      ih (fun hm => hn (List.mem_cons_of_mem _ hm))]
    rfl

theorem lineMap_concat_nl {m : List Char} (hr : m.getLast? ≠ some '\r') :
    lineMap (m ++ ['\n']) = m := by
  rw [lineMap, if_pos (List.getLast?_concat m), List.dropLast_concat, if_neg hr]

theorem lineMap_id {m : List Char} (hn : '\n' ∉ m) : lineMap m = m := by
  have hg : m.getLast? ≠ some '\n' := by
    intro hg
    obtain ⟨ys, rfl⟩ := List.getLast?_eq_some_iff.mp hg
    exact hn (by simp)
  rw [lineMap, if_neg hg]

theorem rustLines_joinNl {L : List (List Char)}
    (h : ∀ m ∈ L, m ≠ [] ∧ '\n' ∉ m ∧ m.getLast? ≠ some '\r') :
    rustLines (joinNl L) = L := by
  induction L with
  | nil => rfl
  | cons m L2 ih =>
    obtain ⟨hne, hnl, hcr⟩ := h m (List.mem_cons_self _ _)
    cases L2 with
    | nil =>
      show rustLines (joinNl [m]) = [m]
      rw [joinNl, rustLines, splitIncl_single hnl hne, List.map_singleton, lineMap_id hnl]
    | cons m2 L3 =>
      have hj : joinNl (m :: m2 :: L3) = m ++ '\n' :: joinNl (m2 :: L3) := rfl
      rw [hj, rustLines, splitIncl_append_nl hnl, List.map_cons, lineMap_concat_nl hcr]
      have := ih (fun x hx => h x (List.mem_cons_of_mem _ hx))
      rw [rustLines] at this
      rw [this]

/-! ### Shape of clean_text output -/

theorem clean_text_mem {s : String} {m : List Char}
    (hm : m ∈ ((rustLines s.data).map rustTrim).filter
      (fun line => !line.isEmpty && decide (2 < utf8Len line))) :
    rustTrim m = m ∧ m ≠ [] ∧ '\n' ∉ m ∧ m.getLast? ≠ some '\r' ∧ 2 < utf8Len m := by
  have hpred := List.of_mem_filter hm
  simp only [Bool.and_eq_true, Bool.not_eq_true', List.isEmpty_eq_false_iff_exists_mem,
    decide_eq_true_eq] at hpred
  have hmem := List.mem_of_mem_filter hm
  obtain ⟨l0, hl0, rfl⟩ := List.mem_map.mp hmem
  have hne : rustTrim l0 ≠ [] := by
    intro hnil
    rcases hpred.1 with ⟨x, hx⟩
    rw [hnil] at hx
    exact absurd hx (List.not_mem_nil x)
  refine ⟨rustTrim_idem l0, hne, ?_, ?_, hpred.2⟩
  · intro hmem2
    exact rustLines_not_nl hl0 ((rustTrim_sublist l0).subset hmem2)
  · intro hlast
    have := rustTrim_getLast_not_ws hlast
    simp [rustIsWs] at this

theorem clean_text_lines (s : String) :
    rustLines (clean_text s).data =
      ((rustLines s.data).map rustTrim).filter
        (fun line => !line.isEmpty && decide (2 < utf8Len line)) := by
  show rustLines (joinNl _) = _
  apply rustLines_joinNl
  intro m hm
  obtain ⟨-, h1, h2, h3, -⟩ := clean_text_mem hm
  exact ⟨h1, h2, h3⟩

theorem clean_text_clean_text (s : String) : clean_text (clean_text s) = clean_text s := by
  show String.mk (joinNl (((rustLines (clean_text s).data).map rustTrim).filter _)) = _
  rw [clean_text_lines]
  rw [List.map_congr_left (fun m hm => (clean_text_mem hm).1), List.map_id']
  have hf : ∀ a ∈ List.filter (fun line => !line.isEmpty && decide (2 < utf8Len line))
      (List.map rustTrim (rustLines s.data)),
      (!a.isEmpty && decide (2 < utf8Len a)) = true :=
    fun a ha => List.of_mem_filter (p := fun line => !line.isEmpty && decide (2 < utf8Len line)) ha
  rw [List.filter_eq_self.mpr hf]
  rfl

-- ## Claim theorems

example : clean_text "  hello  \nab\n\nworld! " = "hello\nworld!" := by decide
example : is_scrapeable_url "https://example.com/article" = true := by decide
example : is_scrapeable_url "https://site.com/FILE.PDF" = false := by decide
example : is_scrapeable_url "https://site.com/download/report.pdf" = false := by decide
example : is_scrapeable_url "https://news.com/story.html" = true := by decide

/-! ### C9 — clean_text normalization -/

/-- C9: the claim fails on the code.  `clean_text` measures a line with Rust
`str::len`, which counts UTF-8 bytes, not characters: on input `"¡a"` (two
characters, three bytes) the line passes the `> 2` test, so the output
contains a line of only two characters. -/
theorem clean_text_char_claim_cex : ¬ cleanTextCharClaim := fun h =>
  absurd (h "¡a" "¡a".data (by decide)) (by decide)

/-- C9 (amended): `clean_text` splits into lines, trims each line, drops
the lines that are empty or at most 2 UTF-8 bytes long, and rejoins with
newlines; in particular every output line is trimmed, nonempty and longer
than 2 bytes (a 1- or 2-character non-ASCII line may still appear). -/
theorem clean_text_line_shape (s : String) (m : List Char)
    (hm : m ∈ rustLines (clean_text s).data) :
    rustTrim m = m ∧ m ≠ [] ∧ 2 < utf8Len m := by
  rw [clean_text_lines] at hm
  obtain ⟨h1, h2, -, -, h5⟩ := clean_text_mem hm
  exact ⟨h1, h2, h5⟩

/-- Witness for C9 (amended) at a concrete input. -/
theorem clean_text_line_shape_witness :
    rustTrim "hello".data = "hello".data ∧ "hello".data ≠ [] ∧ 2 < utf8Len "hello".data :=
  clean_text_line_shape "  hello  \nab\n\nworld! " "hello".data (by decide)

/-! ### C10 — idempotence of clean_text -/

theorem extract_text_is_clean (html : String) : ∃ t, extract_text html = clean_text t := by
  unfold extract_text
  dsimp only
  split
  · exact ⟨_, rfl⟩
  · exact ⟨_, rfl⟩

/-- C10: `clean_text` is idempotent, and since every branch of
`extract_text` returns a `clean_text` image, the output of `extract_text`
is always a fixed point of `clean_text`. -/
theorem clean_text_idem_extract_fixed :
    (∀ s : String, clean_text (clean_text s) = clean_text s) ∧
    (∀ html : String, clean_text (extract_text html) = extract_text html) := by
  refine ⟨clean_text_clean_text, fun html => ?_⟩
  obtain ⟨t, ht⟩ := extract_text_is_clean html
  rw [ht, clean_text_clean_text]

/-! ### C4 / C5 — URL classifier -/

theorem isPrefixOf_self_append (l t : List Char) : l.isPrefixOf (l ++ t) = true := by
  induction l with
  | nil => simp [List.isPrefixOf]
  | cons c cs ih => simp [List.isPrefixOf, ih]

theorem isSuffixOf_append_self (l x : List Char) : l.isSuffixOf (x ++ l) = true := by
  rw [List.isSuffixOf, List.reverse_append]
  exact isPrefixOf_self_append _ _

theorem lowerStr_ext_fixed : ∀ e ∈ nonScrapeableExtensions, lowerStr e = e := by decide

/-- C4: the claim fails on the code.  The classifier tests the whole URL
string, and dropping a blacklisted extension can expose another one: the
URL `https://site.com/a.tar.gz` is rejected, but so is the same-named URL
without `.gz`, because it still ends in `.tar` — the claim would require it
to be accepted. -/
theorem classifier_claim_cex : ¬ classifierClaim := fun h =>
  absurd
    ((h.2 "https://site.com/a.tar".data ".gz".data (by decide) (by decide) (by decide)).2)
    (by decide)

/-- C4 (amended): the suffix test applies to the whole lowercased URL
string (so a query string defeats it), and appending a blacklisted
extension to any URL makes the classifier reject it; the same-named URL
without that extension is accepted provided no other blacklisted extension
remains as a suffix and the download rule does not fire. -/
theorem is_scrapeable_url_suffix (base ext : List Char)
    (hmem : ext ∈ nonScrapeableExtensions) :
    is_scrapeable_url (String.mk (base ++ ext)) = false ∧
    ((∀ e ∈ nonScrapeableExtensions, e.isSuffixOf (lowerStr base) = false) →
     (containsSeq "/download/".data (lowerStr base) &&
       (containsSeq ".doc".data (lowerStr base) || containsSeq ".pdf".data (lowerStr base) ||
        containsSeq ".xls".data (lowerStr base) ||
        containsSeq ".ppt".data (lowerStr base))) = false →
     is_scrapeable_url (String.mk base) = true) := by
  constructor
  · have hlow : lowerStr (base ++ ext) = lowerStr base ++ ext := by
      rw [lowerStr, List.map_append, show List.map lowerA ext = ext from
        lowerStr_ext_fixed ext hmem]
      rfl
    have hsuf : ext.isSuffixOf (lowerStr (base ++ ext)) = true := by
      rw [hlow]; exact isSuffixOf_append_self _ _
    have hany : nonScrapeableExtensions.any
        (fun e => e.isSuffixOf (lowerStr (String.mk (base ++ ext)).data)) = true :=
      List.any_eq_true.mpr ⟨ext, hmem, hsuf⟩
    simp [is_scrapeable_url, hany]
  · intro h1 h2
    have hany : nonScrapeableExtensions.any
        (fun e => e.isSuffixOf (lowerStr (String.mk base).data)) = false := by
      rw [List.any_eq_false]
      intro e he
      rw [h1 e he]
      simp
    simp [is_scrapeable_url, hany, h2]

/-- Witness for C4 (amended): `page.pdf` is rejected, `page` accepted. -/
theorem is_scrapeable_url_suffix_witness :
    is_scrapeable_url (String.mk ("https://example.com/page".data ++ ".pdf".data)) = false ∧
    is_scrapeable_url (String.mk "https://example.com/page".data) = true := by
  have h := is_scrapeable_url_suffix "https://example.com/page".data ".pdf".data (by decide)
  exact ⟨h.1, h.2 (by decide) (by decide)⟩

/-- C5: a URL whose lowercased text contains `/download/` together with one
of `.doc`, `.pdf`, `.xls`, `.ppt` anywhere is always rejected, whether or
not it also ends with a blacklisted extension. -/
theorem is_scrapeable_url_download_rule (url : String)
    (h1 : containsSeq "/download/".data (lowerStr url.data) = true)
    (h2 : containsSeq ".doc".data (lowerStr url.data) = true ∨
          containsSeq ".pdf".data (lowerStr url.data) = true ∨
          containsSeq ".xls".data (lowerStr url.data) = true ∨
          containsSeq ".ppt".data (lowerStr url.data) = true) :
    is_scrapeable_url url = false := by
  cases hany : nonScrapeableExtensions.any (fun e => e.isSuffixOf (lowerStr url.data)) <;>
    rcases h2 with h | h | h | h <;>
    simp [is_scrapeable_url, hany, h1, h]

/-- Witness for C5 at a URL that only the download rule catches. -/
theorem is_scrapeable_url_download_rule_witness :
    is_scrapeable_url "https://site.com/download/report.pdf?session=1" = false :=
  is_scrapeable_url_download_rule _ (by decide) (Or.inr (Or.inl (by decide)))

/-! ### C6 / C7 — retrieval pipeline filtering -/

/-- C6: the claim fails on the code.  The substantiality threshold is
measured in UTF-8 bytes (Rust `len`), not characters: a scraped text of 34
CJK characters (102 bytes) is kept although its character count is far
below 100. -/
theorem substantial_char_claim_cex : ¬ substantialCharClaim := fun h =>
  absurd
    (((h ["日日日日日日日日日日日日日日日日日日日日日日日日日日日日日日日日日日"]
        "日日日日日日日日日日日日日日日日日日日日日日日日日日日日日日日日日日").1
      (by decide)).2)
    (by decide)

/-- C6 (amended): a scraped text passes the pipeline filter iff its trimmed
length exceeds 100 UTF-8 bytes; on an accepted result set whose scrapes all
succeed, the stored list is exactly the byte-filtered scrape output. -/
theorem substantial_filter_spec :
    (∀ (ts : List String) (t : String),
      t ∈ ts.filter substantial ↔ (t ∈ ts ∧ 100 < utf8Len (rustTrim t.data))) ∧
    (∀ (organic : List OrganicResult) (scrape : String → Except String String)
      (scraped : List String),
      organic.filter (fun r => is_scrapeable_url r.link) ≠ [] →
      collectExcept ((organic.filter (fun r => is_scrapeable_url r.link)).map
        (fun r => scrape r.link)) = .ok scraped →
      DataRetrieverRun organic scrape = .ok (scraped.filter substantial)) := by
  constructor
  · intro ts t
    rw [List.mem_filter, substantial]
    simp
  · intro organic scrape scraped hne hok
    have hempty : (organic.filter (fun r => is_scrapeable_url r.link)).isEmpty = false := by
      cases hl : organic.filter (fun r => is_scrapeable_url r.link) with
      | nil => exact absurd hl hne
      | cons a as => rfl
    simp only [DataRetrieverRun, hempty, Bool.false_eq_true, if_false, hok]

/-- Witness for C6 (amended): one accepted URL, one short scrape, stored
list empty. -/
theorem substantial_filter_spec_witness :
    DataRetrieverRun [⟨"t", "https://example.com/a"⟩] (fun _ => .ok "short") = .ok [] := by
  have h := substantial_filter_spec.2 [⟨"t", "https://example.com/a"⟩]
    (fun _ => .ok "short") ["short"] (by decide) (by rfl)
  exact h.trans (by rfl)

theorem collectExcept_error {α : Type} {l : List (Except String α)} {e : String}
    (h : Except.error e ∈ l) : ∃ e2, collectExcept l = .error e2 := by
  induction l with
  | nil => simp at h
  | cons x rest ih =>
    cases x with
    | error e3 => exact ⟨e3, rfl⟩
    | ok a =>
      rcases List.mem_cons.mp h with h1 | h1
      · exact absurd h1 (by simp)
      · obtain ⟨e2, he2⟩ := ih h1
        exact ⟨e2, by simp [collectExcept, he2]⟩

/-- C7: when every search hit is rejected by the URL classifier the task
stores an empty result list and succeeds; when any accepted URL's scrape
fails, the whole task returns a `TaskExecutionFailed` error (no partial
result set). -/
theorem retriever_empty_or_hard_failure :
    (∀ (organic : List OrganicResult) (scrape : String → Except String String),
      (∀ r ∈ organic, is_scrapeable_url r.link = false) →
      DataRetrieverRun organic scrape = .ok []) ∧
    (∀ (organic : List OrganicResult) (scrape : String → Except String String)
      (r : OrganicResult) (e : String),
      r ∈ organic → is_scrapeable_url r.link = true → scrape r.link = .error e →
      ∃ msg, DataRetrieverRun organic scrape = .error (.TaskExecutionFailed msg)) := by
  constructor
  · intro organic scrape hall
    have hnil : organic.filter (fun r => is_scrapeable_url r.link) = [] := by
      rw [List.filter_eq_nil_iff]
      intro a ha
      rw [hall a ha]
      simp
    simp [DataRetrieverRun, hnil]
  · intro organic scrape r e hr hsc herr
    have hmem : r ∈ organic.filter (fun r => is_scrapeable_url r.link) :=
      List.mem_filter.mpr ⟨hr, hsc⟩
    have hmem2 : Except.error e ∈
        (organic.filter (fun r => is_scrapeable_url r.link)).map (fun r => scrape r.link) := by
      rw [← herr]
      exact List.mem_map_of_mem _ hmem
    obtain ⟨e2, he2⟩ := collectExcept_error hmem2
    have hempty : (organic.filter (fun r => is_scrapeable_url r.link)).isEmpty = false := by
      cases hl : organic.filter (fun r => is_scrapeable_url r.link) with
      | nil => rw [hl] at hmem; exact absurd hmem (List.not_mem_nil r)
      | cons a as => rfl
    exact ⟨"Failed to scrape: " ++ e2,
      by simp only [DataRetrieverRun, hempty, Bool.false_eq_true, if_false, he2]⟩

/-- Witness for C7: an all-filtered run succeeds empty; a failing scrape on
an accepted URL fails the run. -/
theorem retriever_empty_or_hard_failure_witness :
    DataRetrieverRun [⟨"t", "https://example.com/file.pdf"⟩] (fun _ => .ok "x") = .ok [] ∧
    ∃ msg, DataRetrieverRun [⟨"t", "https://example.com/page"⟩] (fun _ => .error "boom") =
      .error (.TaskExecutionFailed msg) :=
  ⟨retriever_empty_or_hard_failure.1 _ _ (by decide),
   retriever_empty_or_hard_failure.2 _ _ ⟨"t", "https://example.com/page"⟩ "boom"
     (by decide) (by decide) rfl⟩

/-! ### C2 / C3 — tab acquisition, recovery and cleanup -/

theorem scrape_text_counts {B T : Type} (env : BrowserEnv B T) (b : B) (url : String) :
    (scrape_text env b url).launchCalls = (acquireTab env b).launchCalls ∧
    (scrape_text env b url).newTabCalls = (acquireTab env b).newTabCalls ∧
    (scrape_text env b url).finalBrowser = (acquireTab env b).finalBrowser := by
  unfold scrape_text
  cases h : (acquireTab env b).result <;> simp [h]

theorem scrape_text_result_of_acquire_error {B T : Type} {env : BrowserEnv B T} {b : B}
    {e : String} (url : String) (h : (acquireTab env b).result = .error e) :
    (scrape_text env b url).result = .error e := by
  unfold scrape_text
  simp [h]

theorem acquireTab_first_ok {B T : Type} {env : BrowserEnv B T} {b : B} {tab : T}
    (h1 : env.new_tab b = .ok tab) : acquireTab env b = ⟨.ok tab, b, 1, 0⟩ := by
  unfold acquireTab
  rw [h1]

theorem acquireTab_launch_fail {B T : Type} {env : BrowserEnv B T} {b : B} {e1 e3 : String}
    (h1 : env.new_tab b = .error e1) (hL : env.launch recreateLaunchConfig = .error e3) :
    acquireTab env b = ⟨.error "Failed to recreate browser", b, 1, 1⟩ := by
  unfold acquireTab
  rw [h1]
  dsimp only
  rw [hL]

theorem acquireTab_retry_ok {B T : Type} {env : BrowserEnv B T} {b nb : B} {e1 : String}
    {tab : T} (h1 : env.new_tab b = .error e1)
    (hL : env.launch recreateLaunchConfig = .ok nb) (hT : env.new_tab nb = .ok tab) :
    acquireTab env b = ⟨.ok tab, nb, 2, 1⟩ := by
  unfold acquireTab
  rw [h1]
  dsimp only
  rw [hL]
  dsimp only
  rw [hT]

theorem acquireTab_retry_fail {B T : Type} {env : BrowserEnv B T} {b nb : B} {e1 e2 : String}
    (h1 : env.new_tab b = .error e1)
    (hL : env.launch recreateLaunchConfig = .ok nb) (hT : env.new_tab nb = .error e2) :
    acquireTab env b =
      ⟨.error "Failed to create new browser tab after recreation", nb, 2, 1⟩ := by
  unfold acquireTab
  rw [h1]
  dsimp only
  rw [hL]
  dsimp only
  rw [hT]

/-- C2: under a failed tab creation on the current handle, `scrape_text`
launches exactly one replacement browser, with a configuration identical to
the one used by `WebScraper::new`; the stored handle becomes the new
browser wholesale; tab creation is retried exactly once (at most two
`new_tab` calls in total), and if the retry also fails, the fatal
browser-unavailable error is returned with no further launch or retry. -/
theorem scrape_text_single_recovery {B T : Type} (env : BrowserEnv B T) (b : B)
    (url : String) (e1 : String) (h1 : env.new_tab b = .error e1) :
    recreateLaunchConfig = newLaunchConfig ∧
    (scrape_text env b url).launchCalls = 1 ∧
    (scrape_text env b url).newTabCalls ≤ 2 ∧
    (∀ e3, env.launch recreateLaunchConfig = .error e3 →
      (scrape_text env b url).result = .error "Failed to recreate browser" ∧
      (scrape_text env b url).finalBrowser = b) ∧
    (∀ nb, env.launch recreateLaunchConfig = .ok nb →
      (scrape_text env b url).finalBrowser = nb ∧
      (∀ e2, env.new_tab nb = .error e2 →
        (scrape_text env b url).result =
          .error "Failed to create new browser tab after recreation")) := by
  refine ⟨rfl, ?_, ?_, ?_, ?_⟩
  · rw [(scrape_text_counts env b url).1]
    cases hL : env.launch recreateLaunchConfig with
    | error e3 => rw [acquireTab_launch_fail h1 hL]
    | ok nb =>
      cases hT : env.new_tab nb with
      | error e2 => rw [acquireTab_retry_fail h1 hL hT]
      | ok tab => rw [acquireTab_retry_ok h1 hL hT]
  · rw [(scrape_text_counts env b url).2.1]
    cases hL : env.launch recreateLaunchConfig with
    | error e3 => rw [acquireTab_launch_fail h1 hL]; simp
    | ok nb =>
      cases hT : env.new_tab nb with
      | error e2 => rw [acquireTab_retry_fail h1 hL hT]
      | ok tab => rw [acquireTab_retry_ok h1 hL hT]
  · intro e3 hL
    have hacq := acquireTab_launch_fail h1 hL
    exact ⟨scrape_text_result_of_acquire_error url (by rw [hacq]),
      by rw [(scrape_text_counts env b url).2.2, hacq]⟩
  · intro nb hL
    constructor
    · rw [(scrape_text_counts env b url).2.2]
      cases hT : env.new_tab nb with
      | error e2 => rw [acquireTab_retry_fail h1 hL hT]
      | ok tab => rw [acquireTab_retry_ok h1 hL hT]
    · intro e2 hT
      exact scrape_text_result_of_acquire_error url (by rw [acquireTab_retry_fail h1 hL hT])

/-- Witness for C2 on the toy environment whose tab creation always fails:
one launch, the fatal error after the single retry. -/
theorem scrape_text_single_recovery_witness :
    (scrape_text failTabEnv () "https://a").result =
      .error "Failed to create new browser tab after recreation" ∧
    (scrape_text failTabEnv () "https://a").launchCalls = 1 := by
  have h := scrape_text_single_recovery failTabEnv () "https://a" "no tab" rfl
  exact ⟨(h.2.2.2.2 () rfl).2 "no tab" rfl, h.2.1⟩

/-- C3: whenever the acquisition section yields a tab, `scrape_text` closes
exactly that tab — on the success path as well as on navigation or
content-extraction failure — and the close outcome is swallowed: replacing
the `close_target` oracle by any other never changes the primary result. -/
theorem scrape_text_closes_tab {B T : Type} (env : BrowserEnv B T) (b : B) (url : String)
    (tab : T) (h : (acquireTab env b).result = .ok tab) :
    (scrape_text env b url).closedTabs = [tab] ∧
    ∀ close2 : T → Except String Unit,
      (scrape_text { env with close_target := close2 } b url).result =
        (scrape_text env b url).result := by
  constructor
  · unfold scrape_text
    simp [h]
  · intro close2
    rfl

/-- Witness for C3 on the toy environment whose close always fails: the tab
is recorded closed, and an always-succeeding close gives the same result. -/
theorem scrape_text_closes_tab_witness :
    (scrape_text okEnv () "https://a").closedTabs = [()] ∧
    (scrape_text { okEnv with close_target := fun _ => .ok () } () "https://a").result =
      (scrape_text okEnv () "https://a").result :=
  ⟨(scrape_text_closes_tab okEnv () "https://a" () rfl).1,
   (scrape_text_closes_tab okEnv () "https://a" () rfl).2 _⟩

/-! ### C8 — lock scope and parallel navigation -/

theorem repl_get5 (k : Nat) (x : Nat) (t : List Nat) :
    (List.replicate k 5 ++ x :: t).get? k = some x := by
  induction k with
  | zero => rfl
  | succ n ih => simpa [List.replicate_succ] using ih

theorem repl_set5 (k : Nat) (x y : Nat) (t : List Nat) :
    (List.replicate k 5 ++ x :: t).set k y = List.replicate k 5 ++ y :: t := by
  induction k with
  | zero => rfl
  | succ n ih => simp [List.replicate_succ, ih]

theorem get?_set_self {α : Type} {l : List α} {i : Nat} {x : α} (y : α)
    (h : l.get? i = some x) : (l.set i y).get? i = some y := by
  induction l generalizing i with
  | nil => simp at h
  | cons a as ih =>
    cases i with
    | zero => rfl
    | succ n =>
      rw [List.set_cons_succ, List.get?_cons_succ]
      rw [List.get?_cons_succ] at h
      exact ih h

/-- One task at the head of the untouched suffix advances from its initial
program counter into its navigation phase, taking and releasing the lock on
the way. -/
theorem creach_advance (k : Nat) (t : List Nat) :
    CReach ⟨List.replicate k 5 ++ 0 :: t, none⟩ ⟨List.replicate k 5 ++ 5 :: t, none⟩ := by
  have h1 : CStep ⟨List.replicate k 5 ++ 0 :: t, none⟩
      ⟨List.replicate k 5 ++ 1 :: t, none⟩ := by
    have h := CStep.enter ⟨List.replicate k 5 ++ 0 :: t, none⟩ k 0
      (by simpa using repl_get5 k 0 t) (by decide) (fun hh => absurd hh (by decide))
    simpa [repl_set5, phaseOf, phaseLocked, scrapePhases] using h
  have h2 : CStep ⟨List.replicate k 5 ++ 1 :: t, none⟩
      ⟨List.replicate k 5 ++ 2 :: t, none⟩ := by
    have h := CStep.leave ⟨List.replicate k 5 ++ 1 :: t, none⟩ k 0
      (by simpa using repl_get5 k 1 t) (by decide)
    simpa [repl_set5, phaseOf, phaseLocked, scrapePhases] using h
  have h3 : CStep ⟨List.replicate k 5 ++ 2 :: t, none⟩
      ⟨List.replicate k 5 ++ 3 :: t, some k⟩ := by
    have h := CStep.enter ⟨List.replicate k 5 ++ 2 :: t, none⟩ k 1
      (by simpa using repl_get5 k 2 t) (by decide) (fun _ => rfl)
    simpa [repl_set5, phaseOf, phaseLocked, scrapePhases] using h
  have h4 : CStep ⟨List.replicate k 5 ++ 3 :: t, some k⟩
      ⟨List.replicate k 5 ++ 4 :: t, none⟩ := by
    have h := CStep.leave ⟨List.replicate k 5 ++ 3 :: t, some k⟩ k 1
      (by simpa using repl_get5 k 3 t) (by decide)
    simpa [repl_set5, phaseOf, phaseLocked, scrapePhases] using h
  have h5 : CStep ⟨List.replicate k 5 ++ 4 :: t, none⟩
      ⟨List.replicate k 5 ++ 5 :: t, none⟩ := by
    have h := CStep.enter ⟨List.replicate k 5 ++ 4 :: t, none⟩ k 2
      (by simpa using repl_get5 k 4 t) (by decide) (fun hh => absurd hh (by decide))
    simpa [repl_set5, phaseOf, phaseLocked, scrapePhases] using h
  exact Relation.ReflTransGen.head h1 (Relation.ReflTransGen.head h2
    (Relation.ReflTransGen.head h3 (Relation.ReflTransGen.head h4
      (Relation.ReflTransGen.single h5))))

theorem creach_all_nav_aux :
    ∀ (m k : Nat), CReach ⟨List.replicate k 5 ++ List.replicate m 0, none⟩
      ⟨List.replicate (k + m) 5, none⟩ := by
  intro m
  induction m with
  | zero => intro k; simpa using (Relation.ReflTransGen.refl (r := CStep))
  | succ n ih =>
    intro k
    have h1 : CReach ⟨List.replicate k 5 ++ 0 :: List.replicate n 0, none⟩
        ⟨List.replicate k 5 ++ 5 :: List.replicate n 0, none⟩ := creach_advance k _
    have e2 : List.replicate k (5 : Nat) ++ 5 :: List.replicate n 0 =
        List.replicate (k + 1) 5 ++ List.replicate n 0 := by
      rw [List.replicate_succ']
      simp
    have h2 : CReach ⟨List.replicate (k + 1) 5 ++ List.replicate n 0, none⟩
        ⟨List.replicate (k + 1 + n) 5, none⟩ := ih (k + 1)
    have e3 : k + 1 + n = k + (n + 1) := by omega
    show CReach ⟨List.replicate k 5 ++ (0 :: List.replicate n 0), none⟩
      ⟨List.replicate (k + (n + 1)) 5, none⟩
    refine h1.trans ?_
    rw [e2]
    rw [e3] at h2
    exact h2

theorem lockedPhaseIdx : ∀ k : Nat, k < 6 → phaseLocked (phaseOf k) = true → k = 1 := by
  decide

/-- C8: in every state reachable from the initial one, the task holding the
browser guard is inside the tab-acquisition phase (program counter `3`);
the guard-holding phase is exactly `tabAcquire`, which precedes the
navigation phase; and for every `n`, an interleaving exists in which all
`n` concurrent `scrape_text` calls are inside their navigation phase at
the same time, each on its own tab. -/
theorem scrape_lock_scope_and_parallel_nav :
    (∀ (n : Nat) (s : ConcState) (i : Nat), CReach (concInit n) s →
      s.lock = some i → s.pcs.get? i = some 3) ∧
    (∀ p, phaseLocked p = true ↔ p = SPhase.tabAcquire) ∧
    phaseOf 1 = SPhase.tabAcquire ∧ phaseOf 2 = SPhase.navigate ∧
    (∀ n : Nat, CReach (concInit n) (allNavigating n)) := by
  refine ⟨?_, by intro p; cases p <;> simp [phaseLocked], rfl, rfl, ?_⟩
  · intro n s i hreach
    induction hreach with
    | refl =>
      intro hlock
      simp [concInit] at hlock
    | tail hsteps hstep ih =>
      intro hlock
      cases hstep with
      | enter i2 k hpc hk hl =>
        by_cases hlk : phaseLocked (phaseOf k) = true
        · have hk1 : k = 1 := lockedPhaseIdx k hk hlk
          subst hk1
          simp only [hlk, if_true] at hlock ⊢
          have hii : i2 = i := by simpa using hlock
          subst hii
          simpa using get?_set_self (2 * 1 + 1) hpc
        · simp only [hlk, if_false, Bool.false_eq_true] at hlock ⊢
          have hpc3 := ih hlock
          by_cases hii : i2 = i
          · subst hii
            rw [hpc3] at hpc
            have : (2 : Nat) * k = 3 := by simpa using hpc.symm
            omega
          · rw [List.get?_set_ne _ _ hii]
            exact hpc3
      | leave i2 k hpc hk =>
        by_cases hlk : phaseLocked (phaseOf k) = true
        · simp only [hlk, if_true] at hlock
          exact absurd hlock (by simp)
        · simp only [hlk, if_false, Bool.false_eq_true] at hlock ⊢
          have hpc3 := ih hlock
          by_cases hii : i2 = i
          · subst hii
            rw [hpc3] at hpc
            have h23 : (2 : Nat) * k + 1 = 3 := by simpa using hpc.symm
            have hk1 : k = 1 := by omega
            subst hk1
            exact absurd (by decide : phaseLocked (phaseOf 1) = true) hlk
          · rw [List.get?_set_ne _ _ hii]
            exact hpc3
  · intro n
    have h := creach_all_nav_aux n 0
    simpa [concInit, allNavigating] using h

/-- Witness for C8: with two tasks, a state with the lock held is reached
after three steps and its holder is inside tab acquisition; with three
tasks, the all-navigating state is reachable. -/
theorem scrape_lock_scope_witness :
    (⟨[3, 0], some 0⟩ : ConcState).pcs.get? 0 = some 3 ∧
    CReach (concInit 3) (allNavigating 3) := by
  have h1 : CStep ⟨[0, 0], none⟩ ⟨[1, 0], none⟩ :=
    CStep.enter ⟨[0, 0], none⟩ 0 0 (by decide) (by decide) (fun hh => absurd hh (by decide))
  have h2 : CStep ⟨[1, 0], none⟩ ⟨[2, 0], none⟩ :=
    CStep.leave ⟨[1, 0], none⟩ 0 0 (by decide) (by decide)
  have h3 : CStep ⟨[2, 0], none⟩ ⟨[3, 0], some 0⟩ :=
    CStep.enter ⟨[2, 0], none⟩ 0 1 (by decide) (by decide) (fun _ => rfl)
  have hreach : CReach (concInit 2) ⟨[3, 0], some 0⟩ :=
    Relation.ReflTransGen.head h1 (Relation.ReflTransGen.head h2
      (Relation.ReflTransGen.single h3))
  exact ⟨scrape_lock_scope_and_parallel_nav.1 2 ⟨[3, 0], some 0⟩ 0 hreach rfl,
    scrape_lock_scope_and_parallel_nav.2.2.2.2 3⟩

/-! ### C1 — script/style removal in extract_text -/

theorem tk_text_chunk {s : List Char} (hs : '<' ∉ s) (l : List Char) (acc : List Char) :
    tokenizeAux (s ++ l) (.text acc) = tokenizeAux l (.text (s.reverse ++ acc)) := by
  induction s generalizing acc with
  | nil => simp
  | cons c cs ih =>
    have hc : c ≠ '<' := fun h => hs (by simp [h])
    rw [List.cons_append, tokenizeAux, if_neg hc, ih (fun h => hs (List.mem_cons_of_mem _ h))]
    rw [show cs.reverse ++ (c :: acc) = (c :: cs).reverse ++ acc by simp]

theorem tk_open_script (l : List Char) :
    tokenizeAux ('<' :: 's' :: 'c' :: 'r' :: 'i' :: 'p' :: 't' :: '>' :: l) (.text []) =
      HTok.openTag ['s', 'c', 'r', 'i', 'p', 't'] [] :: tokenizeAux l (.text []) := by
  simp [tokenizeAux, (by decide : mkTag ['s', 'c', 'r', 'i', 'p', 't'] =
    HTok.openTag ['s', 'c', 'r', 'i', 'p', 't'] [])]

theorem tk_close_script {acc : List Char} (h : acc ≠ []) (l : List Char) :
    tokenizeAux ('<' :: '/' :: 's' :: 'c' :: 'r' :: 'i' :: 'p' :: 't' :: '>' :: l)
      (.text acc) =
      HTok.txt acc.reverse :: HTok.closeTag ['s', 'c', 'r', 'i', 'p', 't'] ::
        tokenizeAux l (.text []) := by
  simp [tokenizeAux, h, (by decide : mkTag ['/', 's', 'c', 'r', 'i', 'p', 't'] =
    HTok.closeTag ['s', 'c', 'r', 'i', 'p', 't'])]

theorem tk_open_style (l : List Char) :
    tokenizeAux ('<' :: 's' :: 't' :: 'y' :: 'l' :: 'e' :: '>' :: l) (.text []) =
      HTok.openTag ['s', 't', 'y', 'l', 'e'] [] :: tokenizeAux l (.text []) := by
  simp [tokenizeAux, (by decide : mkTag ['s', 't', 'y', 'l', 'e'] =
    HTok.openTag ['s', 't', 'y', 'l', 'e'] [])]

theorem tk_close_style {acc : List Char} (h : acc ≠ []) (l : List Char) :
    tokenizeAux ('<' :: '/' :: 's' :: 't' :: 'y' :: 'l' :: 'e' :: '>' :: l) (.text acc) =
      HTok.txt acc.reverse :: HTok.closeTag ['s', 't', 'y', 'l', 'e'] ::
        tokenizeAux l (.text []) := by
  simp [tokenizeAux, h, (by decide : mkTag ['/', 's', 't', 'y', 'l', 'e'] =
    HTok.closeTag ['s', 't', 'y', 'l', 'e'])]

theorem tk_open_p (l : List Char) :
    tokenizeAux ('<' :: 'p' :: '>' :: l) (.text []) =
      HTok.openTag ['p'] [] :: tokenizeAux l (.text []) := by
  simp [tokenizeAux, (by decide : mkTag ['p'] = HTok.openTag ['p'] [])]

theorem tk_close_p {acc : List Char} (h : acc ≠ []) (l : List Char) :
    tokenizeAux ('<' :: '/' :: 'p' :: '>' :: l) (.text acc) =
      HTok.txt acc.reverse :: HTok.closeTag ['p'] :: tokenizeAux l (.text []) := by
  simp [tokenizeAux, h, (by decide : mkTag ['/', 'p'] = HTok.closeTag ['p'])]

theorem fam_tokens (s c p : List Char) (hs : s ≠ []) (hsl : '<' ∉ s)
    (hc : c ≠ []) (hcl : '<' ∉ c) (hp : p ≠ []) (hpl : '<' ∉ p) :
    tokenizeAux (famHtml s c p) (.text []) =
      [HTok.openTag ['s', 'c', 'r', 'i', 'p', 't'] [], .txt s,
       .closeTag ['s', 'c', 'r', 'i', 'p', 't'],
       .openTag ['s', 't', 'y', 'l', 'e'] [], .txt c, .closeTag ['s', 't', 'y', 'l', 'e'],
       .openTag ['p'] [], .txt p, .closeTag ['p']] := by
  rw [famHtml, tk_open_script, tk_text_chunk hsl, tk_close_script (by simp [hs]),
    tk_open_style, tk_text_chunk hcl, tk_close_style (by simp [hc]),
    tk_open_p, tk_text_chunk hpl, tk_close_p (by simp [hp])]
  simp [tokenizeAux]

theorem fam_forest (s c p : List Char) (hs : s ≠ []) (hsl : '<' ∉ s)
    (hc : c ≠ []) (hcl : '<' ∉ c) (hp : p ≠ []) (hpl : '<' ∉ p) :
    parseDoc (famHtml s c p) =
      [HNode.elem ['s', 'c', 'r', 'i', 'p', 't'] [] [.text s],
       HNode.elem ['s', 't', 'y', 'l', 'e'] [] [.text c],
       HNode.elem ['p'] [] [.text p]] := by
  rw [parseDoc, fam_tokens s c p hs hsl hc hcl hp hpl]
  simp [treeifyAux, addChild, closeUpto, closeUptoGo, closeFrame, closeAll, closeAllGo, voidTag]

theorem replaceAll_nil (pat rep : List Char) : replaceAll pat rep [] = [] := rfl

theorem ra_skip_chunk (pat rep : List Char) :
    ∀ (xs t : List Char), raAux pat rep (xs ++ t) xs.length = raAux pat rep t 0 := by
  intro xs
  induction xs with
  | nil => intro t; rfl
  | cons a as ih => intro t; rw [List.cons_append, List.length_cons, raAux, ih]

theorem replaceAll_head_match (x : Char) (xs rep t : List Char) :
    replaceAll (x :: xs) rep ((x :: xs) ++ t) = rep ++ replaceAll (x :: xs) rep t := by
  rw [replaceAll, List.cons_append, raAux]
  rw [if_pos ⟨List.cons_ne_nil x xs,
    by rw [← List.cons_append]; exact isPrefixOf_self_append _ _⟩]
  rw [show (x :: xs).length - 1 = xs.length from by simp]
  rw [ra_skip_chunk]
  rfl

theorem replaceAll_skip {c : Char} {pat : List Char} (rep : List Char) (l : List Char)
    (h : pat.isPrefixOf (c :: l) = false) :
    replaceAll pat rep (c :: l) = c :: replaceAll pat rep l := by
  rw [replaceAll, raAux, if_neg]
  · rfl
  · intro hand
    rw [h] at hand
    exact absurd hand.2 (by simp)

theorem replaceAll_skip_ne_lt {a : Char} (ha : a ≠ '<') (pt rep l : List Char) :
    replaceAll ('<' :: pt) rep (a :: l) = a :: replaceAll ('<' :: pt) rep l :=
  replaceAll_skip _ _
    (by simp [List.isPrefixOf, beq_eq_false_iff_ne.mpr (fun hh => ha hh.symm)])

theorem replaceAll_skip_two {b d : Char} (h : (b == d) = false) (pt rep l : List Char) :
    replaceAll ('<' :: b :: pt) rep ('<' :: d :: l) =
      '<' :: replaceAll ('<' :: b :: pt) rep (d :: l) :=
  replaceAll_skip _ _ (by simp [List.isPrefixOf, h])

theorem replaceAll_skip_three {b e f : Char} (h : (e == f) = false) (pt rep l : List Char) :
    replaceAll ('<' :: b :: e :: pt) rep ('<' :: b :: f :: l) =
      '<' :: replaceAll ('<' :: b :: e :: pt) rep (b :: f :: l) :=
  replaceAll_skip _ _ (by simp [List.isPrefixOf, h])

theorem replaceAll_chunk {s : List Char} (hs : '<' ∉ s) (pt rep l : List Char) :
    replaceAll ('<' :: pt) rep (s ++ l) = s ++ replaceAll ('<' :: pt) rep l := by
  induction s with
  | nil => simp
  | cons a as ih =>
    rw [List.cons_append,
      replaceAll_skip_ne_lt (fun hh => hs (by simp [hh])) pt rep (as ++ l),
      ih (fun hh => hs (List.mem_cons_of_mem _ hh)), List.cons_append]

theorem fam_walk_script (s c p : List Char) (hsl : '<' ∉ s) (hcl : '<' ∉ c)
    (hpl : '<' ∉ p) :
    replaceAll
      ('<' :: 's' :: 'c' :: 'r' :: 'i' :: 'p' :: 't' :: '>' ::
        (s ++ ('<' :: '/' :: 's' :: 'c' :: 'r' :: 'i' :: 'p' :: 't' :: '>' :: [])))
      [] (famHtml s c p) =
      '<' :: 's' :: 't' :: 'y' :: 'l' :: 'e' :: '>' ::
        (c ++ ('<' :: '/' :: 's' :: 't' :: 'y' :: 'l' :: 'e' :: '>' ::
          ('<' :: 'p' :: '>' :: (p ++ ('<' :: '/' :: 'p' :: '>' :: []))))) := by
  have hsplit : famHtml s c p =
      ('<' :: 's' :: 'c' :: 'r' :: 'i' :: 'p' :: 't' :: '>' ::
        (s ++ ('<' :: '/' :: 's' :: 'c' :: 'r' :: 'i' :: 'p' :: 't' :: '>' :: []))) ++
      ('<' :: 's' :: 't' :: 'y' :: 'l' :: 'e' :: '>' ::
        (c ++ ('<' :: '/' :: 's' :: 't' :: 'y' :: 'l' :: 'e' :: '>' ::
          ('<' :: 'p' :: '>' :: (p ++ ('<' :: '/' :: 'p' :: '>' :: [])))))) := by
    simp [famHtml]
  rw [hsplit, replaceAll_head_match]
  simp [replaceAll_skip_ne_lt, replaceAll_skip_two, replaceAll_skip_three,
    replaceAll_chunk hcl, replaceAll_chunk hpl, replaceAll_nil]

theorem fam_walk_style (c p : List Char) (hcl : '<' ∉ c) (hpl : '<' ∉ p) :
    replaceAll
      ('<' :: 's' :: 't' :: 'y' :: 'l' :: 'e' :: '>' ::
        (c ++ ('<' :: '/' :: 's' :: 't' :: 'y' :: 'l' :: 'e' :: '>' :: [])))
      []
      ('<' :: 's' :: 't' :: 'y' :: 'l' :: 'e' :: '>' ::
        (c ++ ('<' :: '/' :: 's' :: 't' :: 'y' :: 'l' :: 'e' :: '>' ::
          ('<' :: 'p' :: '>' :: (p ++ ('<' :: '/' :: 'p' :: '>' :: [])))))) =
      '<' :: 'p' :: '>' :: (p ++ ('<' :: '/' :: 'p' :: '>' :: [])) := by
  have hsplit : ('<' :: 's' :: 't' :: 'y' :: 'l' :: 'e' :: '>' ::
      (c ++ ('<' :: '/' :: 's' :: 't' :: 'y' :: 'l' :: 'e' :: '>' ::
        ('<' :: 'p' :: '>' :: (p ++ ('<' :: '/' :: 'p' :: '>' :: [])))))) =
      ('<' :: 's' :: 't' :: 'y' :: 'l' :: 'e' :: '>' ::
        (c ++ ('<' :: '/' :: 's' :: 't' :: 'y' :: 'l' :: 'e' :: '>' :: []))) ++
      ('<' :: 'p' :: '>' :: (p ++ ('<' :: '/' :: 'p' :: '>' :: []))) := by
    simp
  rw [hsplit, replaceAll_head_match]
  simp [replaceAll_skip_ne_lt, replaceAll_skip_two, replaceAll_skip_three,
    replaceAll_chunk hpl, replaceAll_nil]

theorem fam_cleaned (s c p : List Char) (hs : s ≠ []) (hsl : '<' ∉ s)
    (hc : c ≠ []) (hcl : '<' ∉ c) (hp : p ≠ []) (hpl : '<' ∉ p) :
    ((forestElems (parseDoc (famHtml s c p))).filter isScriptStyle).foldl
      (fun acc e => replaceAll (serializeNode e) [] acc) (famHtml s c p) =
      '<' :: 'p' :: '>' :: (p ++ ('<' :: '/' :: 'p' :: '>' :: [])) := by
  rw [fam_forest s c p hs hsl hc hcl hp hpl]
  rw [show (forestElems
      [HNode.elem ['s', 'c', 'r', 'i', 'p', 't'] [] [.text s],
       HNode.elem ['s', 't', 'y', 'l', 'e'] [] [.text c],
       HNode.elem ['p'] [] [.text p]]).filter isScriptStyle =
      [HNode.elem ['s', 'c', 'r', 'i', 'p', 't'] [] [.text s],
       HNode.elem ['s', 't', 'y', 'l', 'e'] [] [.text c]] from by
    simp [forestElems, nodeElems, isScriptStyle, tagOf]]
  rw [List.foldl_cons, List.foldl_cons, List.foldl_nil]
  rw [show serializeNode (HNode.elem ['s', 'c', 'r', 'i', 'p', 't'] [] [.text s]) =
      '<' :: 's' :: 'c' :: 'r' :: 'i' :: 'p' :: 't' :: '>' ::
        (s ++ ('<' :: '/' :: 's' :: 'c' :: 'r' :: 'i' :: 'p' :: 't' :: '>' :: [])) from by
    simp [serializeNode, serializeAttrs, serializeRawForest, rawTextTag, voidTag]]
  rw [fam_walk_script s c p hsl hcl hpl]
  rw [show serializeNode (HNode.elem ['s', 't', 'y', 'l', 'e'] [] [.text c]) =
      '<' :: 's' :: 't' :: 'y' :: 'l' :: 'e' :: '>' ::
        (c ++ ('<' :: '/' :: 's' :: 't' :: 'y' :: 'l' :: 'e' :: '>' :: [])) from by
    simp [serializeNode, serializeAttrs, serializeRawForest, rawTextTag, voidTag]]
  rw [fam_walk_style c p hcl hpl]

theorem fam_parse_p (p : List Char) (hp : p ≠ []) (hpl : '<' ∉ p) :
    parseDoc ('<' :: 'p' :: '>' :: (p ++ ('<' :: '/' :: 'p' :: '>' :: []))) =
      [HNode.elem ['p'] [] [.text p]] := by
  rw [parseDoc, tk_open_p, tk_text_chunk hpl, tk_close_p (by simp [hp])]
  simp [tokenizeAux, treeifyAux, addChild, closeUpto, closeUptoGo, closeFrame, closeAll, closeAllGo, voidTag]

set_option maxRecDepth 8000 in
/-- C1: the claim fails on the code.  The deletion is textual: the parsed
`script` element is re-serialized (lowercased, normalized) and that exact
string is removed from the raw input.  When the source markup differs from
the canonical serialization — here an uppercase `<SCRIPT>` tag — the
replacement finds nothing, the script content survives into the re-parse,
and the fallback text extraction emits it. -/
theorem extract_no_script_claim_cex : ¬ extractNoScriptClaim := fun h =>
  absurd
    (h "<SCRIPT>xsecretx</SCRIPT><p>hello brave new world</p>" "xsecretx".data
      (by decide) (by decide))
    (by decide)

/-- C1 (amended): script and style content is removed before extraction
whenever the element markup occurs in the input exactly in the serializer's
canonical form.  For every document of the shape
`<script>s</script><style>c</style><p>p</p>` with nonempty, `<`-free
contents (and `&`-free visible text, since the embedding does not decode
character references), the extractor's output is exactly the cleaned
visible text, with no trace of `s` or `c`.  For markup whose spelling
differs from its serialization the content can instead leak (see the
counterexample). -/
theorem extract_text_canonical_family (s c p : List Char)
    (hs : s ≠ []) (hsl : '<' ∉ s) (hc : c ≠ []) (hcl : '<' ∉ c)
    (hp : p ≠ []) (hpl : '<' ∉ p) (hpa : '&' ∉ p) :
    extract_text (String.mk (famHtml s c p)) = clean_text (String.mk p) := by
  unfold extract_text
  dsimp only
  rw [fam_cleaned s c p hs hsl hc hcl hp hpl]
  rw [fam_parse_p p hp hpl]
  rw [show firstSubstantial contentRules [HNode.elem ['p'] [] [.text p]] = none from by
    simp [firstSubstantial, findSubstantial, contentRules, matchesSel, getAttr,
      forestElems, nodeElems]]
  dsimp only
  rw [show forestTexts [HNode.elem ['p'] [] [.text p]] = [p] from by
    simp [forestTexts, nodeTexts]]
  rfl

/-- Witness for C1 (amended) at concrete contents. -/
theorem extract_text_canonical_family_witness :
    extract_text (String.mk (famHtml "var x=1;".data "body color: red;".data
      "hello world!".data)) = clean_text (String.mk "hello world!".data) :=
  extract_text_canonical_family "var x=1;".data "body color: red;".data
    "hello world!".data (by decide) (by decide) (by decide) (by decide)
    (by decide) (by decide) (by decide)
